import Mathlib

/-!
Verification of the drpc connection manager (package drpcmanager).

The Go source is embedded shallowly:
  * `Signal` models drpcsignal.Signal: a set-once latch carrying an error.
  * `Packet`, `Kind` model drpcwire packets (Data []byte is modelled by its
    string contents, since Go's string(b) is the identity on contents).
  * The manager's blocking selects are modelled by passing in the schedule
    of which ready branch fires; ordering-sensitive code additionally emits
    a trace of primitive `Action`s.
  * The concurrency claims (single live stream, concurrent Close) are
    modelled as small transition systems whose reachable states are
    analysed by invariant induction.
-/

namespace Drpc

/-- Go error values relevant to drpcmanager: the two package sentinels
(`managerClosed`, `manageStreamExited`), `context.Canceled`, `errs.Wrap`,
and arbitrary other errors. -/
inductive GoErr where
  | managerClosed
  | manageStreamExited
  | canceled
  | wrap (e : GoErr)
  | mk (msg : String)
  deriving DecidableEq

/-- A drpcsignal.Signal: unset, or set once with an error payload (which is
itself allowed to be nil, i.e. `none`). -/
structure Signal where
  state : Option (Option GoErr)
  deriving DecidableEq

/-- The initial, unset signal. -/
def Signal.unset : Signal := ⟨none⟩

/-- Signal.Set: the first caller wins; later calls are no-ops. -/
def Signal.set (s : Signal) (e : Option GoErr) : Signal :=
  match s.state with
  | some _ => s
  | none => ⟨some e⟩

/-- Signal.IsSet. -/
def Signal.isSet (s : Signal) : Bool := s.state.isSome

/-- Signal.Err: the stored error (nil when the signal is unset). -/
def Signal.err (s : Signal) : Option GoErr :=
  match s.state with
  | some e => e
  | none => none

/-- drpcwire packet kinds; only Invoke is interpreted by the manager. -/
inductive Kind where
  | invoke
  | invokeMetadata
  | message
  | error
  | close
  | closeSend
  | cancel
  | other (n : Nat)
  deriving DecidableEq

/-- drpcwire.ID: a stream id and a message id. -/
structure PacketID where
  stream : Nat
  message : Nat
  deriving DecidableEq

/-- A drpcwire.Packet. `data` holds the contents of the Data []byte field. -/
structure Packet where
  id : PacketID
  kind : Kind
  data : String
  deriving DecidableEq

/-- A drpcstream.Stream as far as the manager's bookkeeping is concerned:
the id it was constructed with (drpcstream.New(ctx, sid, wr)). -/
structure Stream where
  sid : Nat
  deriving DecidableEq

/-- The modulus of Go's uint64 arithmetic: `sid` is a uint64, so the
increment in NewClientStream wraps modulo this value. -/
def w64 : Nat := 2 ^ 64

/-- The manager state tracked by the embedding: the stream id counter (the
value of the uint64 `sid` field), the occupancy of the capacity-one `sem`
channel, and the three set-once signals. -/
structure Manager where
  sid : Nat
  semHeld : Bool
  term : Signal
  readS : Signal
  tport : Signal
  deriving DecidableEq

/-- The manager as built by New(tr): sid 0, empty semaphore, all signals
unset. -/
def Manager.new : Manager :=
  { sid := 0, semHeld := false, term := Signal.unset,
    readS := Signal.unset, tport := Signal.unset }

/-- Manager.Closed reports whether term is set. -/
def Manager.Closed (m : Manager) : Bool := m.term.isSet

/-- m.poll(ctx): check ctx.Done() first, then the term signal, else return
nil. The caller's context is modelled by whether it is done (`ctxDone`) and
the non-nil error ctx.Err() reports once done (`ctxErr`). -/
def Manager.poll (m : Manager) (ctxDone : Bool) (ctxErr : GoErr) : Option GoErr :=
  if ctxDone then some ctxErr
  else if m.term.isSet then m.term.err
  else none

/-- Which branch of acquireSemaphore's blocking three-way select fires. -/
inductive AcqBranch where
  | ctxDone
  | termSig
  | semSend
  deriving DecidableEq

/-- Result of acquireSemaphore: the returned error (none = nil, meaning the
slot was sent into), whether the blocking select was reached (false when
the initial poll already decided the call), and the updated manager. -/
structure AcqResult where
  err : Option GoErr
  reachedSelect : Bool
  m : Manager
  deriving DecidableEq

/-- m.acquireSemaphore(ctx): the initial non-blocking poll, then the
blocking select on ctx.Done / term / sem send. `b` is the branch the
select takes when it is reached. -/
def Manager.acquireSemaphore (m : Manager) (ctxDone : Bool) (ctxErr : GoErr)
    (b : AcqBranch) : AcqResult :=
  match m.poll ctxDone ctxErr with
  | some e => ⟨some e, false, m⟩
  | none =>
    match b with
    | .ctxDone => ⟨some ctxErr, true, m⟩
    | .termSig => ⟨m.term.err, true, m⟩
    | .semSend => ⟨none, true, { m with semHeld := true }⟩

/-- Primitive effects observed on the ordering-sensitive paths; used by the
traces that the server-accept loop, the reader pump and the stream
supervisor emit. -/
inductive Action where
  | semRelease
  | returnErr (e : Option GoErr)
  | returnStream (sid : Nat) (rpc : String)
  | streamCancel (e : GoErr)
  | termSet (e : Option GoErr)
  | readSet (e : Option GoErr)
  | queueSend (p : Packet)
  deriving DecidableEq

/-- Result of NewClientStream: the stream created (if any), the returned
error, the updated manager, and whether the blocking select was reached. -/
structure ClientStreamResult where
  stream : Option Stream
  err : Option GoErr
  m : Manager
  reachedSelect : Bool
  deriving DecidableEq

/-- m.NewClientStream(ctx): acquire the semaphore; on success perform
m.sid++ — a uint64 increment, hence modulo 2^64 — and build a stream
carrying the new sid; on failure return the error with the manager
untouched. -/
def Manager.NewClientStream (m : Manager) (ctxDone : Bool) (ctxErr : GoErr)
    (b : AcqBranch) : ClientStreamResult :=
  match m.acquireSemaphore ctxDone ctxErr b with
  | ⟨some e, rs, m1⟩ => ⟨none, some e, m1, rs⟩
  | ⟨none, rs, m1⟩ =>
    ⟨some ⟨(m1.sid + 1) % w64⟩, none, { m1 with sid := (m1.sid + 1) % w64 }, rs⟩

/-- One firing of NewServerStream's waiting select: the caller's context
becomes observed done, the term signal is observed set, another actor sets
the term signal while we wait, or a packet arrives on the queue. -/
inductive SrvEvent where
  | ctxDone
  | termSig
  | setTerm (e : Option GoErr)
  | packet (p : Packet)
  deriving DecidableEq

/-- Result of NewServerStream: stream and rpc name on success, the error
otherwise, the updated manager, the emitted trace, and whether
acquireSemaphore reached its blocking select. -/
structure ServerStreamResult where
  stream : Option Stream
  rpc : String
  err : Option GoErr
  m : Manager
  trace : List Action
  reachedSelect : Bool
  deriving DecidableEq

/-- The for/select loop of NewServerStream, entered with the semaphore
held. ctx.Done releases the semaphore and returns ctx.Err(); the term
signal releases the semaphore and returns term.Err(); a non-Invoke packet
is silently discarded; an Invoke packet yields a stream carrying the
packet's stream id together with string(pkt.Data). `none` means the
schedule ended with the loop still waiting. -/
def Manager.serverLoop (m : Manager) (ctxErr : GoErr) :
    List SrvEvent → Option ServerStreamResult
  | [] => none
  | .ctxDone :: _ =>
    some ⟨none, "", some ctxErr, { m with semHeld := false },
      [.semRelease, .returnErr (some ctxErr)], true⟩
  | .termSig :: _ =>
    some ⟨none, "", m.term.err, { m with semHeld := false },
      [.semRelease, .returnErr m.term.err], true⟩
  | .setTerm e :: rest =>
    Manager.serverLoop { m with term := m.term.set e } ctxErr rest
  | .packet p :: rest =>
    if p.kind = .invoke then
      some ⟨some ⟨p.id.stream⟩, p.data, none, m,
        [.returnStream p.id.stream p.data], true⟩
    else
      Manager.serverLoop m ctxErr rest

/-- m.NewServerStream(ctx): acquire the semaphore, then run the waiting
loop over the scheduled events. On acquisition failure the error is
returned directly (no semaphore release: it was never acquired). -/
def Manager.NewServerStream (m : Manager) (ctxDone : Bool) (ctxErr : GoErr)
    (b : AcqBranch) (evs : List SrvEvent) : Option ServerStreamResult :=
  match m.acquireSemaphore ctxDone ctxErr b with
  | ⟨some e, rs, m1⟩ => some ⟨none, "", some e, m1, [.returnErr (some e)], rs⟩
  | ⟨none, _, m1⟩ => Manager.serverLoop m1 ctxErr evs

/-- An operation on the manager, for reasoning about call sequences:
a NewClientStream call, a NewServerStream call, the release of the
semaphore by a stream supervisor, or another actor setting term. -/
inductive MgrOp where
  | client (ctxDone : Bool) (ctxErr : GoErr) (b : AcqBranch)
  | server (ctxDone : Bool) (ctxErr : GoErr) (b : AcqBranch) (evs : List SrvEvent)
  | release
  | setTerm (e : Option GoErr)
  deriving DecidableEq

/-- Run one operation; the second component is the id of the client stream
created by the operation, when there is one. A server call whose schedule
leaves it waiting contributes no state change here (it has not returned;
in particular it has not touched sid). -/
def Manager.stepOp (m : Manager) : MgrOp → Manager × Option Nat
  | .client cd ce b =>
    match (m.NewClientStream cd ce b).stream with
    | some s => ((m.NewClientStream cd ce b).m, some s.sid)
    | none => ((m.NewClientStream cd ce b).m, none)
  | .server cd ce b evs =>
    match m.NewServerStream cd ce b evs with
    | some r => (r.m, none)
    | none => (m, none)
  | .release => ({ m with semHeld := false }, none)
  | .setTerm e => ({ m with term := m.term.set e }, none)

/-- Run a sequence of operations, collecting the ids handed out by
successful NewClientStream calls in call order. -/
def Manager.runOps (m : Manager) : List MgrOp → Manager × List Nat
  | [] => (m, [])
  | op :: ops =>
    ((Manager.runOps (m.stepOp op).1 ops).1,
     (match (m.stepOp op).2 with | some i => [i] | none => []) ++
       (Manager.runOps (m.stepOp op).1 ops).2)

/-- One iteration of the reader pump as scheduled: ReadPacket succeeded and
the following select either delivered the packet into the queue
(`ok p true`) or took the term branch and exited (`ok p false`); or
ReadPacket returned an error (`fail e`). -/
inductive ReadEvt where
  | ok (p : Packet) (delivered : Bool)
  | fail (e : GoErr)
  deriving DecidableEq

/-- Result of a terminated run of the reader pump. -/
structure ReaderResult where
  term : Signal
  readS : Signal
  trace : List Action
  deriving DecidableEq

/-- m.manageReader: loop reading packets. A read error sets term to the
wrapped error and exits; observing term set exits; a delivered packet is
sent into the queue. The deferred read.Set(managerClosed) runs on every
exit path. `none` means the schedule ended with the pump still looping. -/
def Manager.manageReader (term readS : Signal) :
    List ReadEvt → Option ReaderResult
  | [] => none
  | .fail e :: _ =>
    some ⟨term.set (some (.wrap e)), readS.set (some .managerClosed),
      [.termSet (some (.wrap e)), .readSet (some .managerClosed)]⟩
  | .ok _ false :: _ =>
    some ⟨term, readS.set (some .managerClosed),
      [.readSet (some .managerClosed)]⟩
  | .ok p true :: rest =>
    match Manager.manageReader term readS rest with
    | none => none
    | some r => some ⟨r.term, r.readS, .queueSend p :: r.trace⟩

/-- Modelled from the spec: the drpcstream.Stream contract of the external
interfaces section (the stream code itself is not part of the sources).
A stream is running, finished (a non-cancelled terminal state), or
cancelled with an error. -/
inductive StreamState where
  | running
  | finishedOk
  | cancelled (e : GoErr)
  deriving DecidableEq

/-- Modelled from the spec: Terminated() fires exactly in a terminal
state. -/
def StreamState.terminated : StreamState → Bool
  | .running => false
  | .finishedOk => true
  | .cancelled _ => true

/-- Modelled from the spec: Finished() is true iff the stream reached the
non-cancelled terminal state. -/
def StreamState.finished : StreamState → Bool
  | .finishedOk => true
  | _ => false

/-- Modelled from the spec: Cancel(err) is a no-op on a terminal state and
otherwise moves the stream to the cancelled terminal state. -/
def StreamState.cancel (st : StreamState) (e : GoErr) : StreamState :=
  if st.terminated then st else .cancelled e

/-- Which branch the cancellation watcher's one-shot select takes. -/
inductive CtxBranch where
  | termSig
  | streamTerm
  | ctxDone
  deriving DecidableEq

/-- Result of the cancellation watcher. -/
structure CtxWatchResult where
  stream : StreamState
  term : Signal
  trace : List Action
  deriving DecidableEq

/-- m.manageStreamContext: one-shot select on term / stream.Terminated /
ctx.Done. On ctx.Done it calls stream.Cancel(ctx.Err()) and then sets term
to ctx.Err() when the stream is not Finished(). -/
def Manager.manageStreamContext (term : Signal) (st : StreamState)
    (ctxErr : GoErr) : CtxBranch → CtxWatchResult
  | .termSig => ⟨st, term, []⟩
  | .streamTerm => ⟨st, term, []⟩
  | .ctxDone =>
    if (st.cancel ctxErr).finished then
      ⟨st.cancel ctxErr, term, [.streamCancel ctxErr]⟩
    else
      ⟨st.cancel ctxErr, term.set (some ctxErr),
        [.streamCancel ctxErr, .termSet (some ctxErr)]⟩

/-- The state shared between a stream supervisor and its two sub-tasks. -/
structure SupShared where
  term : Signal
  stream : StreamState
  semHeld : Bool
  deriving DecidableEq

/-- m.manageStream: run the two sub-tasks to completion (abstracted as an
arbitrary state transformer `sub` with its emitted trace), then
unconditionally stream.Cancel(context.Canceled) followed by the semaphore
release. -/
def Manager.manageStream (sub : SupShared → SupShared × List Action)
    (s : SupShared) : SupShared × List Action :=
  let r := sub s
  let s2 : SupShared :=
    { term := r.1.term, stream := r.1.stream.cancel .canceled, semHeld := false }
  (s2, r.2 ++ [.streamCancel .canceled, .semRelease])

/-- Who currently occupies the capacity-one `sem` channel: nobody, a
client-stream supervisor, a NewServerStream call still waiting for an
Invoke, a server-stream supervisor, or Close's step 3. -/
inductive SemOwner where
  | free
  | clientSup
  | serverWait
  | serverSup
  | closer
  deriving DecidableEq

/-- System state for the stream-admission claim: the semaphore owner and
the number of live streams (streams created whose supervisor has not yet
released the semaphore). -/
structure StreamSys where
  owner : SemOwner
  live : Nat
  deriving DecidableEq

/-- Transitions of the stream-admission system, one per source occurrence
of a send to or receive from `sem`:
  * `clientAcquire`: NewClientStream's acquireSemaphore succeeds and the
    stream is created.
  * `serverAcquire`: NewServerStream's acquireSemaphore succeeds; it then
    waits for an Invoke while holding the slot.
  * `serverInvoke`: the waiting NewServerStream receives an Invoke and
    creates the stream.
  * `serverAbort`: the waiting NewServerStream is interrupted and releases
    the slot.
  * `clientExit` / `serverExit`: the stream's supervisor finishes,
    releasing the slot (end of manageStream).
  * `closeAcquire`: Close's shutdown protocol sends into the slot (and
    never releases it). -/
inductive SysStep : StreamSys → StreamSys → Prop where
  | clientAcquire (n : Nat) : SysStep ⟨.free, n⟩ ⟨.clientSup, n + 1⟩
  | serverAcquire (n : Nat) : SysStep ⟨.free, n⟩ ⟨.serverWait, n⟩
  | serverInvoke (n : Nat) : SysStep ⟨.serverWait, n⟩ ⟨.serverSup, n + 1⟩
  | serverAbort (n : Nat) : SysStep ⟨.serverWait, n⟩ ⟨.free, n⟩
  | clientExit (n : Nat) : SysStep ⟨.clientSup, n⟩ ⟨.free, n - 1⟩
  | serverExit (n : Nat) : SysStep ⟨.serverSup, n⟩ ⟨.free, n - 1⟩
  | closeAcquire (n : Nat) : SysStep ⟨.free, n⟩ ⟨.closer, n⟩

/-- States of the stream-admission system reachable from a fresh manager
(empty semaphore, no live stream). -/
inductive SysReach : StreamSys → Prop where
  | init : SysReach ⟨.free, 0⟩
  | step {s s' : StreamSys} : SysReach s → SysStep s s' → SysReach s'

/-- The exact stream count per owner: a stream is live precisely while a
stream supervisor owns the semaphore slot. -/
def SysInv (s : StreamSys) : Prop :=
  s.live = (match s.owner with
    | .clientSup => 1
    | .serverSup => 1
    | _ => 0)

/-- State of one Close caller: not yet called; blocked inside once.Do while
another caller runs the body; at one of the four protocol steps of the
body (term.Set, wait transportClosed, acquire sem, wait readDone); past
once.Do and about to read tport.Err(); or returned with a value. -/
inductive CallerSt where
  | outside
  | waitingOnce
  | bodyTermSet
  | bodyWaitTport
  | bodyAcquireSem
  | bodyWaitRead
  | afterOnce
  | returned (v : Option GoErr)
  deriving DecidableEq

/-- Whether a caller is currently executing the once body. -/
def CallerSt.inBody : CallerSt → Bool
  | .bodyTermSet => true
  | .bodyWaitTport => true
  | .bodyAcquireSem => true
  | .bodyWaitRead => true
  | _ => false

/-- State of the sync.Once guarding the shutdown protocol. -/
inductive OnceSt where
  | idle
  | running (k : Nat)
  | done
  deriving DecidableEq

/-- Shared state for the concurrent-Close system: the per-caller states,
the once, the manager's three signals, the semaphore occupancy, and a
count of how many times the protocol body was entered. -/
structure CloseSys (n : Nat) where
  caller : Fin n → CallerSt
  once : OnceSt
  term : Signal
  tport : Signal
  readS : Signal
  semHeld : Bool
  bodyRuns : Nat

/-- Pointwise update of the caller map. -/
def updC {n : Nat} (f : Fin n → CallerSt) (i : Fin n) (c : CallerSt) :
    Fin n → CallerSt :=
  fun j => if j = i then c else f j

/-- Transitions of the concurrent-Close system. Caller transitions follow
Close: entering once.Do (first caller runs the body, everyone else
blocks), the four protocol steps in order, leaving once.Do once it is
done, and finally reading tport.Err(). Environment transitions are the
other actors: the transport supervisor setting transportClosed after term
(with the transport's close result), the reader pump setting readDone,
anyone setting term, and stream activity on the semaphore. -/
inductive CloseStep (n : Nat) : CloseSys n → CloseSys n → Prop where
  | callStart (s : CloseSys n) (i : Fin n) :
      s.caller i = .outside → s.once = .idle →
      CloseStep n s { s with caller := updC s.caller i .bodyTermSet,
                             once := .running i.val,
                             bodyRuns := s.bodyRuns + 1 }
  | callWait (s : CloseSys n) (i : Fin n) :
      s.caller i = .outside → s.once ≠ .idle →
      CloseStep n s { s with caller := updC s.caller i .waitingOnce }
  | waitFinish (s : CloseSys n) (i : Fin n) :
      s.caller i = .waitingOnce → s.once = .done →
      CloseStep n s { s with caller := updC s.caller i .afterOnce }
  | ownerTermSet (s : CloseSys n) (i : Fin n) :
      s.caller i = .bodyTermSet →
      CloseStep n s { s with caller := updC s.caller i .bodyWaitTport,
                             term := s.term.set (some .managerClosed) }
  | ownerWaitTport (s : CloseSys n) (i : Fin n) :
      s.caller i = .bodyWaitTport → s.tport.isSet = true →
      CloseStep n s { s with caller := updC s.caller i .bodyAcquireSem }
  | ownerAcquireSem (s : CloseSys n) (i : Fin n) :
      s.caller i = .bodyAcquireSem → s.semHeld = false →
      CloseStep n s { s with caller := updC s.caller i .bodyWaitRead,
                             semHeld := true }
  | ownerWaitRead (s : CloseSys n) (i : Fin n) :
      s.caller i = .bodyWaitRead → s.readS.isSet = true →
      CloseStep n s { s with caller := updC s.caller i .afterOnce,
                             once := .done }
  | callReturn (s : CloseSys n) (i : Fin n) :
      s.caller i = .afterOnce →
      CloseStep n s { s with caller := updC s.caller i (.returned s.tport.err) }
  | envTermSet (s : CloseSys n) (e : Option GoErr) :
      CloseStep n s { s with term := s.term.set e }
  | envTportSet (s : CloseSys n) (e : Option GoErr) :
      s.term.isSet = true →
      CloseStep n s { s with tport := s.tport.set e }
  | envReadSet (s : CloseSys n) :
      CloseStep n s { s with readS := s.readS.set (some .managerClosed) }
  | envSemAcquire (s : CloseSys n) :
      s.semHeld = false →
      CloseStep n s { s with semHeld := true }
  | envSemRelease (s : CloseSys n) :
      s.semHeld = true →
      CloseStep n s { s with semHeld := false }

/-- The system as it is when the manager is fresh and nobody has called
Close yet. -/
def CloseSys.start (n : Nat) : CloseSys n :=
  { caller := fun _ => .outside, once := .idle, term := .unset,
    tport := .unset, readS := .unset, semHeld := false, bodyRuns := 0 }

/-- Reachable states of the concurrent-Close system. -/
inductive CloseReach (n : Nat) : CloseSys n → Prop where
  | init : CloseReach n (CloseSys.start n)
  | step {s s' : CloseSys n} : CloseReach n s → CloseStep n s s' → CloseReach n s'

/-- The inductive invariant of the concurrent-Close system. -/
structure CInv {n : Nat} (s : CloseSys n) : Prop where
  runsLe : s.bodyRuns ≤ 1
  idleRuns : s.once = .idle → s.bodyRuns = 0
  runningRuns : ∀ k, s.once = .running k → s.bodyRuns = 1
  bodyOwner : ∀ i : Fin n, (s.caller i).inBody = true → s.once = .running i.val
  doneFacts : s.once = .done →
    s.tport.isSet = true ∧ s.readS.isSet = true ∧ s.bodyRuns = 1
  lateBodyTport : ∀ i : Fin n,
    s.caller i = .bodyAcquireSem ∨ s.caller i = .bodyWaitRead →
    s.tport.isSet = true
  afterDone : ∀ i : Fin n, s.caller i = .afterOnce → s.once = .done
  retFacts : ∀ i : Fin n, ∀ v, s.caller i = .returned v →
    s.once = .done ∧ s.tport.state = some v

/-- A message packet addressed to a stale stream, as in the spec's
server-accept scenario. -/
def msgPkt : Packet := ⟨⟨7, 3⟩, .message, ""⟩

/-- An Invoke packet for stream 8 naming the rpc Echo. -/
def invokePkt : Packet := ⟨⟨8, 0⟩, .invoke, "Echo"⟩

/-- A manager whose term signal has been set to the managerClosed error. -/
def mTermSet : Manager := { Manager.new with term := ⟨some (some .managerClosed)⟩ }

/-- A demonstration schedule: two successful client streams with a
supervisor release in between. -/
def demoOps : List MgrOp :=
  [.client false .canceled .semSend, .release, .client false .canceled .semSend]

/-- One successful client call followed by its supervisor releasing the
semaphore. -/
def clientRelease : List MgrOp :=
  [.client false .canceled .semSend, .release]

/-- A schedule of 2^64 successful client calls (each followed by the
supervisor's release): enough to wrap the uint64 sid back to 0. -/
def wrapOps : List MgrOp := (List.replicate w64 clientRelease).flatten

/-- The sole caller index in the one-caller Close demonstration. -/
def i0 : Fin 1 := ⟨0, Nat.zero_lt_one⟩

/-- Snapshots of a complete one-caller run of the Close protocol. -/
def d0 : CloseSys 1 := CloseSys.start 1

def d1 : CloseSys 1 :=
  { d0 with caller := updC d0.caller i0 .bodyTermSet,
            once := .running i0.val, bodyRuns := d0.bodyRuns + 1 }

def d2 : CloseSys 1 :=
  { d1 with caller := updC d1.caller i0 .bodyWaitTport,
            term := d1.term.set (some .managerClosed) }

def d3 : CloseSys 1 :=
  { d2 with tport := d2.tport.set none }

def d4 : CloseSys 1 :=
  { d3 with caller := updC d3.caller i0 .bodyAcquireSem }

def d5 : CloseSys 1 :=
  { d4 with caller := updC d4.caller i0 .bodyWaitRead, semHeld := true }

def d6 : CloseSys 1 :=
  { d5 with readS := d5.readS.set (some .managerClosed) }

def d7 : CloseSys 1 :=
  { d6 with caller := updC d6.caller i0 .afterOnce, once := .done }

def d8 : CloseSys 1 :=
  { d7 with caller := updC d7.caller i0 (.returned d7.tport.err) }

/-- A set signal keeps its payload across any later `set`. -/
theorem Signal.set_preserves (s : Signal) (e e' : Option GoErr)
    (h : s.state = some e) : (s.set e').state = some e := by
  unfold Signal.set
  rw [h]
  exact h

theorem sysInv_reach {s : StreamSys} (h : SysReach s) : SysInv s := by
  induction h with
  | init => rfl
  | step _ hs ih =>
    cases hs <;> simp_all [SysInv]

/-- Follow-on signal lemma: setting never unsets. -/
theorem Signal.isSet_set (s : Signal) (e : Option GoErr)
    (h : s.isSet = true) : (s.set e).isSet = true := by
  unfold Signal.isSet Signal.set at *
  cases hs : s.state with
  | none => rw [hs] at h; simp [Option.isSome] at h
  | some x => rw [hs]; simp [hs]

/-- A set signal's state is exactly `some` of its reported error. -/
theorem Signal.state_eq_some_err (s : Signal) (h : s.isSet = true) :
    s.state = some s.err := by
  unfold Signal.isSet at h
  cases hs : s.state with
  | none => rw [hs] at h; simp [Option.isSome] at h
  | some x => unfold Signal.err; rw [hs]

theorem updC_same {n : Nat} (f : Fin n → CallerSt) (i : Fin n) (c : CallerSt) :
    updC f i c i = c := by simp [updC]

theorem updC_other {n : Nat} (f : Fin n → CallerSt) (i j : Fin n)
    (c : CallerSt) (h : j ≠ i) : updC f i c j = f j := by simp [updC, h]

theorem cinv_start (n : Nat) : CInv (CloseSys.start n) where
  runsLe := by simp [CloseSys.start]
  idleRuns := fun _ => rfl
  runningRuns := fun k h => by simp [CloseSys.start] at h
  bodyOwner := fun i h => by simp [CloseSys.start, CallerSt.inBody] at h
  doneFacts := fun h => by simp [CloseSys.start] at h
  lateBodyTport := fun i h => by simp [CloseSys.start] at h
  afterDone := fun i h => by simp [CloseSys.start] at h
  retFacts := fun i v h => by simp [CloseSys.start] at h

theorem cinv_step {n : Nat} {s s' : CloseSys n} (inv : CInv s)
    (h : CloseStep n s s') : CInv s' := by
  cases h with
  | callStart i hi ho =>
    have h0 : s.bodyRuns = 0 := inv.idleRuns ho
    refine ⟨?_, ?_, ?_, ?_, ?_, ?_, ?_, ?_⟩
    · simp [h0]
    · intro h; simp at h
    · intro k _; simp [h0]
    · intro j hj
      by_cases hji : j = i
      · subst hji; rfl
      · simp only [updC_other _ _ _ _ hji] at hj
        have h1 := inv.bodyOwner j hj
        rw [ho] at h1; simp at h1
    · intro h; simp at h
    · intro j hj
      by_cases hji : j = i
      · subst hji; simp only [updC_same] at hj; rcases hj with h | h <;> simp at h
      · simp only [updC_other _ _ _ _ hji] at hj; exact inv.lateBodyTport j hj
    · intro j hj
      by_cases hji : j = i
      · subst hji; simp only [updC_same] at hj; simp at hj
      · simp only [updC_other _ _ _ _ hji] at hj
        have h1 := inv.afterDone j hj
        rw [ho] at h1; simp at h1
    · intro j v hj
      by_cases hji : j = i
      · subst hji; simp only [updC_same] at hj; simp at hj
      · simp only [updC_other _ _ _ _ hji] at hj
        have h1 := (inv.retFacts j v hj).1
        rw [ho] at h1; simp at h1
  | callWait i hi ho =>
    refine ⟨inv.runsLe, inv.idleRuns, inv.runningRuns, ?_, inv.doneFacts, ?_, ?_, ?_⟩
    · intro j hj
      by_cases hji : j = i
      · subst hji; simp only [updC_same] at hj; simp [CallerSt.inBody] at hj
      · simp only [updC_other _ _ _ _ hji] at hj; exact inv.bodyOwner j hj
    · intro j hj
      by_cases hji : j = i
      · subst hji; simp only [updC_same] at hj; rcases hj with h | h <;> simp at h
      · simp only [updC_other _ _ _ _ hji] at hj; exact inv.lateBodyTport j hj
    · intro j hj
      by_cases hji : j = i
      · subst hji; simp only [updC_same] at hj; simp at hj
      · simp only [updC_other _ _ _ _ hji] at hj; exact inv.afterDone j hj
    · intro j v hj
      by_cases hji : j = i
      · subst hji; simp only [updC_same] at hj; simp at hj
      · simp only [updC_other _ _ _ _ hji] at hj; exact inv.retFacts j v hj
  | waitFinish i hi ho =>
    refine ⟨inv.runsLe, inv.idleRuns, inv.runningRuns, ?_, inv.doneFacts, ?_, ?_, ?_⟩
    · intro j hj
      by_cases hji : j = i
      · subst hji; simp only [updC_same] at hj; simp [CallerSt.inBody] at hj
      · simp only [updC_other _ _ _ _ hji] at hj; exact inv.bodyOwner j hj
    · intro j hj
      by_cases hji : j = i
      · subst hji; simp only [updC_same] at hj; rcases hj with h | h <;> simp at h
      · simp only [updC_other _ _ _ _ hji] at hj; exact inv.lateBodyTport j hj
    · intro j hj
      by_cases hji : j = i
      · exact ho
      · simp only [updC_other _ _ _ _ hji] at hj; exact inv.afterDone j hj
    · intro j v hj
      by_cases hji : j = i
      · subst hji; simp only [updC_same] at hj; simp at hj
      · simp only [updC_other _ _ _ _ hji] at hj; exact inv.retFacts j v hj
  | ownerTermSet i hi =>
    have hoi : s.once = .running i.val := inv.bodyOwner i (by rw [hi]; rfl)
    refine ⟨inv.runsLe, inv.idleRuns, inv.runningRuns, ?_, inv.doneFacts, ?_, ?_, ?_⟩
    · intro j hj
      by_cases hji : j = i
      · subst hji; exact hoi
      · simp only [updC_other _ _ _ _ hji] at hj; exact inv.bodyOwner j hj
    · intro j hj
      by_cases hji : j = i
      · subst hji; simp only [updC_same] at hj; rcases hj with h | h <;> simp at h
      · simp only [updC_other _ _ _ _ hji] at hj; exact inv.lateBodyTport j hj
    · intro j hj
      by_cases hji : j = i
      · subst hji; simp only [updC_same] at hj; simp at hj
      · simp only [updC_other _ _ _ _ hji] at hj; exact inv.afterDone j hj
    · intro j v hj
      by_cases hji : j = i
      · subst hji; simp only [updC_same] at hj; simp at hj
      · simp only [updC_other _ _ _ _ hji] at hj; exact inv.retFacts j v hj
  | ownerWaitTport i hi ht =>
    have hoi : s.once = .running i.val := inv.bodyOwner i (by rw [hi]; rfl)
    refine ⟨inv.runsLe, inv.idleRuns, inv.runningRuns, ?_, inv.doneFacts, ?_, ?_, ?_⟩
    · intro j hj
      by_cases hji : j = i
      · subst hji; exact hoi
      · simp only [updC_other _ _ _ _ hji] at hj; exact inv.bodyOwner j hj
    · intro j hj
      by_cases hji : j = i
      · exact ht
      · simp only [updC_other _ _ _ _ hji] at hj; exact inv.lateBodyTport j hj
    · intro j hj
      by_cases hji : j = i
      · subst hji; simp only [updC_same] at hj; simp at hj
      · simp only [updC_other _ _ _ _ hji] at hj; exact inv.afterDone j hj
    · intro j v hj
      by_cases hji : j = i
      · subst hji; simp only [updC_same] at hj; simp at hj
      · simp only [updC_other _ _ _ _ hji] at hj; exact inv.retFacts j v hj
  | ownerAcquireSem i hi hsem =>
    have hoi : s.once = .running i.val := inv.bodyOwner i (by rw [hi]; rfl)
    have ht : s.tport.isSet = true := inv.lateBodyTport i (Or.inl hi)
    refine ⟨inv.runsLe, inv.idleRuns, inv.runningRuns, ?_, inv.doneFacts, ?_, ?_, ?_⟩
    · intro j hj
      by_cases hji : j = i
      · subst hji; exact hoi
      · simp only [updC_other _ _ _ _ hji] at hj; exact inv.bodyOwner j hj
    · intro j hj
      by_cases hji : j = i
      · exact ht
      · simp only [updC_other _ _ _ _ hji] at hj; exact inv.lateBodyTport j hj
    · intro j hj
      by_cases hji : j = i
      · subst hji; simp only [updC_same] at hj; simp at hj
      · simp only [updC_other _ _ _ _ hji] at hj; exact inv.afterDone j hj
    · intro j v hj
      by_cases hji : j = i
      · subst hji; simp only [updC_same] at hj; simp at hj
      · simp only [updC_other _ _ _ _ hji] at hj; exact inv.retFacts j v hj
  | ownerWaitRead i hi hr =>
    have hoi : s.once = .running i.val := inv.bodyOwner i (by rw [hi]; rfl)
    have ht : s.tport.isSet = true := inv.lateBodyTport i (Or.inr hi)
    refine ⟨inv.runsLe, ?_, ?_, ?_, ?_, ?_, ?_, ?_⟩
    · intro h; simp at h
    · intro k h; simp at h
    · intro j hj
      by_cases hji : j = i
      · subst hji; simp only [updC_same] at hj; simp [CallerSt.inBody] at hj
      · simp only [updC_other _ _ _ _ hji] at hj
        have h1 := inv.bodyOwner j hj
        rw [hoi] at h1
        injection h1 with hv
        exact absurd (Fin.val_injective hv.symm) hji
    · intro _
      exact ⟨ht, hr, inv.runningRuns i.val hoi⟩
    · intro j hj
      by_cases hji : j = i
      · subst hji; simp only [updC_same] at hj; rcases hj with h | h <;> simp at h
      · simp only [updC_other _ _ _ _ hji] at hj; exact inv.lateBodyTport j hj
    · intro j _
      rfl
    · intro j v hj
      by_cases hji : j = i
      · subst hji; simp only [updC_same] at hj; simp at hj
      · simp only [updC_other _ _ _ _ hji] at hj
        exact ⟨rfl, (inv.retFacts j v hj).2⟩
  | callReturn i hi =>
    refine ⟨inv.runsLe, inv.idleRuns, inv.runningRuns, ?_, inv.doneFacts, ?_, ?_, ?_⟩
    · intro j hj
      by_cases hji : j = i
      · subst hji; simp only [updC_same] at hj; simp [CallerSt.inBody] at hj
      · simp only [updC_other _ _ _ _ hji] at hj; exact inv.bodyOwner j hj
    · intro j hj
      by_cases hji : j = i
      · subst hji; simp only [updC_same] at hj; rcases hj with h | h <;> simp at h
      · simp only [updC_other _ _ _ _ hji] at hj; exact inv.lateBodyTport j hj
    · intro j hj
      by_cases hji : j = i
      · subst hji; simp only [updC_same] at hj; simp at hj
      · simp only [updC_other _ _ _ _ hji] at hj; exact inv.afterDone j hj
    · intro j v hj
      by_cases hji : j = i
      · subst hji; simp only [updC_same] at hj
        injection hj with hv
        have hd := inv.afterDone j hi
        have ht := (inv.doneFacts hd).1
        refine ⟨hd, ?_⟩
        rw [← hv]
        exact Signal.state_eq_some_err _ ht
      · simp only [updC_other _ _ _ _ hji] at hj; exact inv.retFacts j v hj
  | envTermSet e =>
    exact ⟨inv.runsLe, inv.idleRuns, inv.runningRuns, inv.bodyOwner,
      inv.doneFacts, inv.lateBodyTport, inv.afterDone, inv.retFacts⟩
  | envTportSet e hterm =>
    refine ⟨inv.runsLe, inv.idleRuns, inv.runningRuns, inv.bodyOwner, ?_, ?_,
      inv.afterDone, ?_⟩
    · intro h
      obtain ⟨h1, h2, h3⟩ := inv.doneFacts h
      exact ⟨Signal.isSet_set _ _ h1, h2, h3⟩
    · intro j hj
      exact Signal.isSet_set _ _ (inv.lateBodyTport j hj)
    · intro j v hj
      obtain ⟨h1, h2⟩ := inv.retFacts j v hj
      exact ⟨h1, Signal.set_preserves _ _ _ h2⟩
  | envReadSet =>
    refine ⟨inv.runsLe, inv.idleRuns, inv.runningRuns, inv.bodyOwner, ?_,
      inv.lateBodyTport, inv.afterDone, inv.retFacts⟩
    · intro h
      obtain ⟨h1, h2, h3⟩ := inv.doneFacts h
      exact ⟨h1, Signal.isSet_set _ _ h2, h3⟩
  | envSemAcquire hsem =>
    exact ⟨inv.runsLe, inv.idleRuns, inv.runningRuns, inv.bodyOwner,
      inv.doneFacts, inv.lateBodyTport, inv.afterDone, inv.retFacts⟩
  | envSemRelease hsem =>
    exact ⟨inv.runsLe, inv.idleRuns, inv.runningRuns, inv.bodyOwner,
      inv.doneFacts, inv.lateBodyTport, inv.afterDone, inv.retFacts⟩

theorem cinv_reach {n : Nat} {s : CloseSys n} (h : CloseReach n s) : CInv s := by
  induction h with
  | init => exact cinv_start n
  | step _ hs ih => exact cinv_step ih hs

theorem acquire_sid (m : Manager) (cd : Bool) (ce : GoErr) (b : AcqBranch) :
    (m.acquireSemaphore cd ce b).m.sid = m.sid := by
  unfold Manager.acquireSemaphore
  cases m.poll cd ce <;> cases b <;> rfl

theorem acquire_term (m : Manager) (cd : Bool) (ce : GoErr) (b : AcqBranch) :
    (m.acquireSemaphore cd ce b).m.term = m.term := by
  unfold Manager.acquireSemaphore
  cases m.poll cd ce <;> cases b <;> rfl

theorem serverLoop_sid (ce : GoErr) (evs : List SrvEvent) :
    ∀ m r, Manager.serverLoop m ce evs = some r → r.m.sid = m.sid := by
  induction evs with
  | nil => intro m r h; simp [Manager.serverLoop] at h
  | cons ev rest ih =>
    intro m r h
    cases ev with
    | ctxDone =>
      simp [Manager.serverLoop] at h
      rw [← h]
    | termSig =>
      simp [Manager.serverLoop] at h
      rw [← h]
    | setTerm e =>
      simp [Manager.serverLoop] at h
      exact ih { m with term := m.term.set e } r h
    | packet p =>
      by_cases hk : p.kind = Kind.invoke
      · simp [Manager.serverLoop, hk] at h
        rw [← h]
      · simp [Manager.serverLoop, hk] at h
        exact ih m r h

theorem newServerStream_sid (m : Manager) (cd : Bool) (ce : GoErr)
    (b : AcqBranch) (evs : List SrvEvent) :
    ∀ r, Manager.NewServerStream m cd ce b evs = some r → r.m.sid = m.sid := by
  intro r h
  unfold Manager.NewServerStream at h
  have hs := acquire_sid m cd ce b
  cases ha : m.acquireSemaphore cd ce b with
  | mk err rs m1 =>
    rw [ha] at h hs
    cases err with
    | some e =>
      simp at h
      rw [← h]
      exact hs
    | none =>
      simp at h
      rw [serverLoop_sid ce evs m1 r h]
      exact hs

theorem serverLoop_skip (m : Manager) (ce : GoErr) (pre tail : List SrvEvent)
    (hpre : ∀ ev ∈ pre, ∃ q, ev = SrvEvent.packet q ∧ q.kind ≠ Kind.invoke) :
    Manager.serverLoop m ce (pre ++ tail) = Manager.serverLoop m ce tail := by
  induction pre with
  | nil => rfl
  | cons ev pre ih =>
    obtain ⟨q, hq, hk⟩ := hpre ev (by simp)
    subst hq
    simp only [List.cons_append, Manager.serverLoop, hk, if_neg]
    exact ih (fun e he => hpre e (by simp [he]))

theorem serverLoop_invoke_origin (ce : GoErr) (evs : List SrvEvent) :
    ∀ m r st, Manager.serverLoop m ce evs = some r → r.stream = some st →
      ∃ p, SrvEvent.packet p ∈ evs ∧ p.kind = Kind.invoke ∧
        st.sid = p.id.stream ∧ r.rpc = p.data := by
  induction evs with
  | nil => intro m r st h _; simp [Manager.serverLoop] at h
  | cons ev rest ih =>
    intro m r st h hst
    cases ev with
    | ctxDone =>
      simp [Manager.serverLoop] at h
      rw [← h] at hst
      simp at hst
    | termSig =>
      simp [Manager.serverLoop] at h
      rw [← h] at hst
      simp at hst
    | setTerm e =>
      simp [Manager.serverLoop] at h
      obtain ⟨p, hp1, hp2, hp3, hp4⟩ := ih { m with term := m.term.set e } r st h hst
      exact ⟨p, by simp [hp1], hp2, hp3, hp4⟩
    | packet p =>
      by_cases hk : p.kind = Kind.invoke
      · simp [Manager.serverLoop, hk] at h
        rw [← h] at hst
        simp at hst
        rw [← h]
        exact ⟨p, by simp, hk, by rw [← hst], rfl⟩
      · simp [Manager.serverLoop, hk] at h
        obtain ⟨q, hq1, hq2, hq3, hq4⟩ := ih m r st h hst
        exact ⟨q, by simp [hq1], hq2, hq3, hq4⟩

theorem client_cases (m : Manager) (cd : Bool) (ce : GoErr) (b : AcqBranch) :
    ((Manager.NewClientStream m cd ce b).stream = none ∧
      (Manager.NewClientStream m cd ce b).m.sid = m.sid) ∨
    ((Manager.NewClientStream m cd ce b).stream = some ⟨(m.sid + 1) % w64⟩ ∧
      (Manager.NewClientStream m cd ce b).m.sid = (m.sid + 1) % w64) := by
  unfold Manager.NewClientStream
  have hs := acquire_sid m cd ce b
  cases ha : m.acquireSemaphore cd ce b with
  | mk err rs m1 =>
    rw [ha] at hs
    cases err with
    | some e => exact Or.inl ⟨rfl, hs⟩
    | none =>
      have hs2 : m1.sid = m.sid := hs
      refine Or.inr ⟨?_, ?_⟩
      · show some (⟨(m1.sid + 1) % w64⟩ : Stream) = some ⟨(m.sid + 1) % w64⟩
        rw [hs2]
      · show (m1.sid + 1) % w64 = (m.sid + 1) % w64
        rw [hs2]

theorem stepOp_sid (m : Manager) (op : MgrOp) :
    ((m.stepOp op).2 = none → (m.stepOp op).1.sid = m.sid) ∧
    (∀ i, (m.stepOp op).2 = some i →
      i = (m.sid + 1) % w64 ∧ (m.stepOp op).1.sid = (m.sid + 1) % w64) := by
  cases op with
  | client cd ce b =>
    rcases client_cases m cd ce b with ⟨h1, h2⟩ | ⟨h1, h2⟩
    · constructor
      · intro _
        simp [Manager.stepOp, h1]
        exact h2
      · intro i hi
        simp [Manager.stepOp, h1] at hi
    · constructor
      · intro hn
        simp [Manager.stepOp, h1] at hn
      · intro i hi
        simp [Manager.stepOp, h1] at hi
        refine ⟨hi.symm, ?_⟩
        simp [Manager.stepOp, h1]
        exact h2
  | server cd ce b evs =>
    cases hr : m.NewServerStream cd ce b evs with
    | some r =>
      constructor
      · intro _
        simp [Manager.stepOp, hr]
        exact newServerStream_sid m cd ce b evs r hr
      · intro i hi
        simp [Manager.stepOp, hr] at hi
    | none =>
      constructor
      · intro _
        simp [Manager.stepOp, hr]
      · intro i hi
        simp [Manager.stepOp, hr] at hi
  | release =>
    exact ⟨fun _ => rfl, fun i hi => by simp [Manager.stepOp] at hi⟩
  | setTerm e =>
    exact ⟨fun _ => rfl, fun i hi => by simp [Manager.stepOp] at hi⟩

theorem w64_pos : 0 < w64 := by
  unfold w64
  positivity

theorem range'_map_mod (n : Nat) :
    ∀ a b, a % w64 = b % w64 →
      (List.range' a n).map (fun x => x % w64)
        = (List.range' b n).map (fun x => x % w64) := by
  induction n with
  | zero => intro a b _; rfl
  | succ n ih =>
    intro a b hab
    rw [List.range'_succ, List.range'_succ, List.map_cons, List.map_cons, hab]
    rw [ih (a + 1) (b + 1) (by rw [← Nat.mod_add_mod, hab, Nat.mod_add_mod])]

theorem map_mod_id : ∀ l : List Nat, (∀ x ∈ l, x < w64) →
    l.map (fun x => x % w64) = l := by
  intro l
  induction l with
  | nil => intro _; rfl
  | cons x l ih =>
    intro hx
    rw [List.map_cons, Nat.mod_eq_of_lt (hx x (by simp)),
      ih (fun y hy => hx y (by simp [hy]))]

theorem runOps_spec (ops : List MgrOp) :
    ∀ m : Manager, m.sid < w64 →
      (Manager.runOps m ops).2
        = (List.range' (m.sid + 1) (Manager.runOps m ops).2.length).map
            (fun x => x % w64) ∧
      (Manager.runOps m ops).1.sid
        = (m.sid + (Manager.runOps m ops).2.length) % w64 := by
  induction ops with
  | nil =>
    intro m hm
    simp [Manager.runOps]
    exact (Nat.mod_eq_of_lt hm).symm
  | cons op ops ih =>
    intro m hm
    cases hr : (m.stepOp op).2 with
    | none =>
      have hsid : (m.stepOp op).1.sid = m.sid := (stepOp_sid m op).1 hr
      have ihm := ih (m.stepOp op).1 (by rw [hsid]; exact hm)
      rw [hsid] at ihm
      simp only [Manager.runOps, hr, List.nil_append]
      exact ihm
    | some i =>
      obtain ⟨hi, hsid⟩ := (stepOp_sid m op).2 i hr
      have ihm := ih (m.stepOp op).1 (by rw [hsid]; exact Nat.mod_lt _ w64_pos)
      rw [hsid] at ihm
      simp only [Manager.runOps, hr, List.singleton_append, List.length_cons]
      constructor
      · rw [List.range'_succ, List.map_cons, hi]
        conv_lhs => rw [ihm.1]
        rw [range'_map_mod _ ((m.sid + 1) % w64 + 1) (m.sid + 1 + 1)
          (by rw [Nat.mod_add_mod])]
      · rw [ihm.2, Nat.mod_add_mod]
        have harith : m.sid + 1 + (Manager.runOps (m.stepOp op).1 ops).2.length
            = m.sid + ((Manager.runOps (m.stepOp op).1 ops).2.length + 1) := by
          omega
        rw [harith]

theorem cancel_finished (st : StreamState) (e : GoErr) :
    (st.cancel e).finished = st.finished := by
  cases st <;> rfl

theorem manager_eta_sem (m : Manager) (h : m.semHeld = false) :
    ({ m with semHeld := false } : Manager) = m := by
  cases m with
  | mk a b c d e =>
    simp at h
    rw [h]

/-- C1: Every call to Close, whether first, repeated, or concurrent,
returns the same value — the error recorded by the transport supervisor in
the transportClosed signal — and the four-step shutdown protocol body is
entered at most once; no caller has returned unless the protocol has run
to completion (once done, transportClosed and readDone both set). -/
theorem C1_close_protocol {n : Nat} {s : CloseSys n} (h : CloseReach n s) :
    (∀ i j : Fin n, ∀ vi vj : Option GoErr,
        s.caller i = .returned vi → s.caller j = .returned vj → vi = vj) ∧
    s.bodyRuns ≤ 1 ∧
    (∀ i : Fin n, ∀ v : Option GoErr, s.caller i = .returned v →
        s.bodyRuns = 1 ∧ s.once = .done ∧ s.tport.isSet = true ∧
        s.readS.isSet = true ∧ v = s.tport.err) := by
  have inv := cinv_reach h
  refine ⟨?_, inv.runsLe, ?_⟩
  · intro i j vi vj hvi hvj
    have h1 := (inv.retFacts i vi hvi).2
    have h2 := (inv.retFacts j vj hvj).2
    rw [h1] at h2
    exact Option.some.inj h2
  · intro i v hv
    obtain ⟨hd, hstate⟩ := inv.retFacts i v hv
    obtain ⟨ht, hrd, hruns⟩ := inv.doneFacts hd
    refine ⟨hruns, hd, ht, hrd, ?_⟩
    have hse := Signal.state_eq_some_err s.tport ht
    rw [hstate] at hse
    exact Option.some.inj hse

theorem d8_reach : CloseReach 1 d8 :=
  CloseReach.step
    (CloseReach.step
      (CloseReach.step
        (CloseReach.step
          (CloseReach.step
            (CloseReach.step
              (CloseReach.step
                (CloseReach.step CloseReach.init
                  (CloseStep.callStart d0 i0 rfl rfl))
                (CloseStep.ownerTermSet d1 i0 (by decide)))
              (CloseStep.envTportSet d2 none (by decide)))
            (CloseStep.ownerWaitTport d3 i0 (by decide) (by decide)))
          (CloseStep.ownerAcquireSem d4 i0 (by decide) (by decide)))
        (CloseStep.envReadSet d5))
      (CloseStep.ownerWaitRead d6 i0 (by decide) (by decide)))
    (CloseStep.callReturn d7 i0 (by decide))

theorem C1_witness :
    d8.caller i0 = CallerSt.returned none ∧ d8.bodyRuns ≤ 1 ∧
    d8.bodyRuns = 1 ∧ d8.once = OnceSt.done ∧ none = d8.tport.err :=
  ⟨by decide, (C1_close_protocol d8_reach).2.1,
    ((C1_close_protocol d8_reach).2.2 i0 none (by decide)).1,
    ((C1_close_protocol d8_reach).2.2 i0 none (by decide)).2.1,
    ((C1_close_protocol d8_reach).2.2 i0 none (by decide)).2.2.2.2⟩

/-- C2: In every reachable interleaving of manager operations, at most one
stream is live, and a stream is live only while a stream supervisor holds
the capacity-one semaphore slot acquired by newClientStream or
newServerStream. -/
theorem C2_single_live_stream {s : StreamSys} (h : SysReach s) :
    s.live ≤ 1 ∧
    (s.live = 1 → s.owner = SemOwner.clientSup ∨ s.owner = SemOwner.serverSup) := by
  have hi := sysInv_reach h
  unfold SysInv at hi
  cases ho : s.owner <;> rw [ho] at hi <;> simp [hi]

theorem C2_witness :
    SysReach ⟨SemOwner.clientSup, 1⟩ ∧
    (⟨SemOwner.clientSup, 1⟩ : StreamSys).live ≤ 1 :=
  ⟨SysReach.step SysReach.init (SysStep.clientAcquire 0),
   (C2_single_live_stream (SysReach.step SysReach.init (SysStep.clientAcquire 0))).1⟩

/-- The run of the wrap schedule: from a manager whose term is unset,
k repetitions of a successful client call plus release hand out the ids
(sid+1) mod 2^64, (sid+2) mod 2^64, …, (sid+k) mod 2^64. -/
theorem wrap_run (k : Nat) :
    ∀ m : Manager, m.term.state = none →
      (Manager.runOps m ((List.replicate k clientRelease).flatten)).2
        = (List.range' (m.sid + 1) k).map (fun x => x % w64) := by
  induction k with
  | zero => intro m _; rfl
  | succ k ih =>
    intro m hterm
    have hpoll : m.poll false .canceled = none := by
      simp [Manager.poll, Signal.isSet, hterm]
    have hacq : m.acquireSemaphore false .canceled .semSend
        = ⟨none, true, { m with semHeld := true }⟩ := by
      unfold Manager.acquireSemaphore
      rw [hpoll]
    have hclient : Manager.NewClientStream m false .canceled .semSend
        = ⟨some ⟨(m.sid + 1) % w64⟩, none,
            { m with semHeld := true, sid := (m.sid + 1) % w64 }, true⟩ := by
      unfold Manager.NewClientStream
      rw [hacq]
    show (Manager.runOps m (MgrOp.client false .canceled .semSend
        :: MgrOp.release :: (List.replicate k clientRelease).flatten)).2 = _
    simp only [Manager.runOps, Manager.stepOp, hclient, List.singleton_append,
      List.nil_append]
    have ihm := ih { m with sid := (m.sid + 1) % w64, semHeld := false } hterm
    rw [List.range'_succ, List.map_cons]
    refine congrArg (fun l => (m.sid + 1) % w64 :: l) ?_
    rw [ihm]
    exact range'_map_mod _ ((m.sid + 1) % w64 + 1) (m.sid + 1 + 1)
      (by rw [Nat.mod_add_mod])

/-- C3 counterexample: on the explicit schedule of 2^64 successful client
calls, the assigned ids are not 1, 2, 3, …, because the uint64 sid wraps:
the last id handed out is 0. -/
theorem C3_counterexample :
    (Manager.runOps Manager.new wrapOps).2
      ≠ List.range' 1 (Manager.runOps Manager.new wrapOps).2.length ∧
    (Manager.runOps Manager.new wrapOps).2.length = w64 ∧
    0 ∈ (Manager.runOps Manager.new wrapOps).2 := by
  have hids : (Manager.runOps Manager.new wrapOps).2
      = (List.range' 1 w64).map (fun x => x % w64) := by
    have h := wrap_run w64 Manager.new rfl
    simpa [wrapOps, Manager.new] using h
  have hlen : (Manager.runOps Manager.new wrapOps).2.length = w64 := by
    rw [hids]
    simp
  have hmem : (0 : Nat) ∈ (Manager.runOps Manager.new wrapOps).2 := by
    rw [hids]
    refine List.mem_map.mpr ⟨w64, ?_, Nat.mod_self w64⟩
    have hw := w64_pos
    exact List.mem_range'_1.mpr ⟨by omega, by omega⟩
  refine ⟨?_, hlen, hmem⟩
  intro hEq
  have h0 := (List.mem_range'_1.mp (hEq ▸ hmem)).1
  omega

/-- C3 (amended): Over any operation sequence from a fresh manager, the
ids handed out by successful NewClientStream calls are 1, 2, 3, … reduced
modulo 2^64 (sid is a uint64, so m.sid++ wraps); in particular they are
exactly 1, 2, 3, … in call order as long as fewer than 2^64 successes have
occurred, and sid equals the success count modulo 2^64; a failed
NewClientStream leaves sid untouched; NewServerStream never modifies sid
and its stream carries the Invoke packet's stream id verbatim. -/
theorem C3_stream_ids (ops : List MgrOp) :
    (Manager.runOps Manager.new ops).2
      = (List.range' 1 (Manager.runOps Manager.new ops).2.length).map
          (fun k => k % w64) ∧
    ((Manager.runOps Manager.new ops).2.length < w64 →
      (Manager.runOps Manager.new ops).2
        = List.range' 1 (Manager.runOps Manager.new ops).2.length) ∧
    (Manager.runOps Manager.new ops).1.sid
      = (Manager.runOps Manager.new ops).2.length % w64 ∧
    (∀ m cd ce b, (Manager.NewClientStream m cd ce b).stream = none →
        (Manager.NewClientStream m cd ce b).m.sid = m.sid) ∧
    (∀ m cd ce b evs r, Manager.NewServerStream m cd ce b evs = some r →
        r.m.sid = m.sid ∧
        ∀ st, r.stream = some st →
          ∃ p, SrvEvent.packet p ∈ evs ∧ p.kind = Kind.invoke ∧
            st.sid = p.id.stream ∧ r.rpc = p.data) := by
  have hnew : Manager.new.sid < w64 := by
    have hw := w64_pos
    simpa [Manager.new] using hw
  have hmain := runOps_spec ops Manager.new hnew
  refine ⟨?_, ?_, ?_, ?_, ?_⟩
  · have h1 := hmain.1
    simpa [Manager.new] using h1
  · intro hlt
    have h1 := hmain.1
    have hall : ∀ x ∈ List.range' (Manager.new.sid + 1)
        (Manager.runOps Manager.new ops).2.length, x < w64 := by
      intro x hx
      have hb := List.mem_range'_1.mp hx
      have hs : Manager.new.sid = 0 := rfl
      omega
    conv_lhs => rw [h1]
    rw [map_mod_id _ hall]
    simp [Manager.new]
  · have h2 := hmain.2
    simpa [Manager.new] using h2
  · intro m cd ce b hnone
    rcases client_cases m cd ce b with ⟨h1, h2⟩ | ⟨h1, h2⟩
    · exact h2
    · rw [hnone] at h1
      simp at h1
  · intro m cd ce b evs r hr
    refine ⟨newServerStream_sid m cd ce b evs r hr, ?_⟩
    intro st hst
    unfold Manager.NewServerStream at hr
    cases ha : m.acquireSemaphore cd ce b with
    | mk err rs m1 =>
      rw [ha] at hr
      cases err with
      | some e =>
        simp at hr
        rw [← hr] at hst
        simp at hst
      | none =>
        simp at hr
        exact serverLoop_invoke_origin ce evs m1 r st hr hst

theorem C3_witness :
    (Manager.runOps Manager.new demoOps).2 = [1, 2] ∧
    (Manager.runOps Manager.new demoOps).2.length < w64 ∧
    (Manager.runOps Manager.new demoOps).2
      = List.range' 1 (Manager.runOps Manager.new demoOps).2.length ∧
    (Manager.NewClientStream Manager.new true GoErr.canceled AcqBranch.semSend).stream
      = none ∧
    (Manager.NewClientStream Manager.new true GoErr.canceled AcqBranch.semSend).m.sid
      = Manager.new.sid :=
  ⟨by decide, by decide, (C3_stream_ids demoOps).2.1 (by decide), by decide,
   (C3_stream_ids demoOps).2.2.2.1 Manager.new true GoErr.canceled AcqBranch.semSend
     (by decide)⟩

/-- C4: While waiting after acquiring the semaphore, NewServerStream
silently discards every non-Invoke packet and keeps waiting; at the first
Invoke packet it returns a stream whose id is that packet's stream id
together with the packet's data as the rpc name. -/
theorem C4_server_accept (m : Manager) (ce : GoErr) (pre rest : List SrvEvent)
    (p : Packet)
    (hpre : ∀ ev ∈ pre, ∃ q, ev = SrvEvent.packet q ∧ q.kind ≠ Kind.invoke)
    (hp : p.kind = Kind.invoke) :
    Manager.serverLoop m ce (pre ++ SrvEvent.packet p :: rest)
      = some ⟨some ⟨p.id.stream⟩, p.data, none, m,
          [Action.returnStream p.id.stream p.data], true⟩ := by
  rw [serverLoop_skip m ce pre _ hpre]
  simp [Manager.serverLoop, hp]

theorem C4_witness :
    Manager.serverLoop { Manager.new with semHeld := true } GoErr.canceled
        [SrvEvent.packet msgPkt, SrvEvent.packet invokePkt]
      = some ⟨some ⟨8⟩, "Echo", none, { Manager.new with semHeld := true },
          [Action.returnStream 8 "Echo"], true⟩ :=
  C4_server_accept { Manager.new with semHeld := true } GoErr.canceled
    [SrvEvent.packet msgPkt] [] invokePkt
    (by intro ev hev
        rw [List.mem_singleton] at hev
        exact ⟨msgPkt, hev, by decide⟩)
    (by decide)

/-- C5: If NewServerStream is interrupted while waiting for an Invoke —
by the caller's context becoming done, or by the term signal being set —
it releases the semaphore before returning the corresponding error, and no
stream is created: the manager is as if the slot had never been acquired. -/
theorem C5_server_interrupt_releases (m : Manager) (ce te : GoErr)
    (pre rest : List SrvEvent)
    (hpre : ∀ ev ∈ pre, ∃ q, ev = SrvEvent.packet q ∧ q.kind ≠ Kind.invoke)
    (hsem : m.semHeld = false) (hterm : m.term.state = none) :
    Manager.NewServerStream m false ce AcqBranch.semSend
        (pre ++ SrvEvent.ctxDone :: rest)
      = some ⟨none, "", some ce, m,
          [Action.semRelease, Action.returnErr (some ce)], true⟩ ∧
    Manager.NewServerStream m false ce AcqBranch.semSend
        (pre ++ SrvEvent.setTerm (some te) :: SrvEvent.termSig :: rest)
      = some ⟨none, "", some te, { m with term := ⟨some (some te)⟩ },
          [Action.semRelease, Action.returnErr (some te)], true⟩ := by
  have hpoll : m.poll false ce = none := by
    simp [Manager.poll, Signal.isSet, hterm]
  have hacq : m.acquireSemaphore false ce AcqBranch.semSend
      = ⟨none, true, { m with semHeld := true }⟩ := by
    unfold Manager.acquireSemaphore
    rw [hpoll]
  constructor
  · unfold Manager.NewServerStream
    rw [hacq]
    show Manager.serverLoop { m with semHeld := true } ce
        (pre ++ SrvEvent.ctxDone :: rest)
      = some ⟨none, "", some ce, m,
          [Action.semRelease, Action.returnErr (some ce)], true⟩
    rw [serverLoop_skip _ ce pre _ hpre]
    show some (⟨none, "", some ce, { m with semHeld := false },
        [Action.semRelease, Action.returnErr (some ce)], true⟩ : ServerStreamResult)
      = some (⟨none, "", some ce, m,
        [Action.semRelease, Action.returnErr (some ce)], true⟩ : ServerStreamResult)
    rw [manager_eta_sem m hsem]
  · unfold Manager.NewServerStream
    rw [hacq]
    show Manager.serverLoop { m with semHeld := true } ce
        (pre ++ SrvEvent.setTerm (some te) :: SrvEvent.termSig :: rest)
      = some ⟨none, "", some te, { m with term := ⟨some (some te)⟩ },
          [Action.semRelease, Action.returnErr (some te)], true⟩
    rw [serverLoop_skip _ ce pre _ hpre]
    simp [Manager.serverLoop, Signal.set, Signal.err, hterm, hsem]

theorem C5_witness :
    Manager.NewServerStream Manager.new false GoErr.canceled AcqBranch.semSend
        [SrvEvent.ctxDone]
      = some ⟨none, "", some GoErr.canceled, Manager.new,
          [Action.semRelease, Action.returnErr (some GoErr.canceled)], true⟩ :=
  (C5_server_interrupt_releases Manager.new GoErr.canceled GoErr.canceled [] []
    (by intro ev hev; simp at hev) rfl rfl).1

/-- C6: When the cancellation watcher takes the ctx.Done branch with the
term signal not yet set, it calls stream.Cancel with the context's error
and then sets term to that error exactly when the stream is not finished;
if the stream had already finished, term is left untouched. -/
theorem C6_ctx_watcher (term : Signal) (st : StreamState) (e : GoErr)
    (hterm : term.state = none) :
    (st.finished = false →
      Manager.manageStreamContext term st e CtxBranch.ctxDone
        = ⟨st.cancel e, ⟨some (some e)⟩,
            [Action.streamCancel e, Action.termSet (some e)]⟩) ∧
    (st.finished = true →
      Manager.manageStreamContext term st e CtxBranch.ctxDone
        = ⟨st.cancel e, term, [Action.streamCancel e]⟩) := by
  constructor
  · intro hf
    simp [Manager.manageStreamContext, cancel_finished, hf, Signal.set, hterm]
  · intro hf
    simp [Manager.manageStreamContext, cancel_finished, hf]

theorem C6_witness :
    Manager.manageStreamContext Signal.unset StreamState.running GoErr.canceled
        CtxBranch.ctxDone
      = ⟨StreamState.cancelled GoErr.canceled, ⟨some (some GoErr.canceled)⟩,
          [Action.streamCancel GoErr.canceled, Action.termSet (some GoErr.canceled)]⟩ ∧
    Manager.manageStreamContext Signal.unset StreamState.finishedOk GoErr.canceled
        CtxBranch.ctxDone
      = ⟨StreamState.finishedOk, Signal.unset, [Action.streamCancel GoErr.canceled]⟩ :=
  ⟨(C6_ctx_watcher Signal.unset StreamState.running GoErr.canceled rfl).1 rfl,
   (C6_ctx_watcher Signal.unset StreamState.finishedOk GoErr.canceled rfl).2 rfl⟩

/-- C7: On every terminating run of the stream supervisor, whatever its
two sub-tasks did, the supervisor performs stream.Cancel(Canceled) after
the sub-tasks' actions and then the semaphore release as the final two
actions; the semaphore ends released and the stream ends cancelled. -/
theorem C7_supervisor_cleanup (sub : SupShared → SupShared × List Action)
    (s : SupShared) :
    (Manager.manageStream sub s).2
      = (sub s).2 ++ [Action.streamCancel GoErr.canceled, Action.semRelease] ∧
    (Manager.manageStream sub s).1.semHeld = false ∧
    (Manager.manageStream sub s).1.stream = (sub s).1.stream.cancel GoErr.canceled ∧
    (Manager.manageStream sub s).1.term = (sub s).1.term := by
  unfold Manager.manageStream
  exact ⟨rfl, rfl, rfl, rfl⟩

/-- C8: Whenever ReadPacket returns an error the reader pump sets term to
the wrapped error and exits; and on every exit path the readDone signal is
set to the managerClosed sentinel. -/
theorem C8_reader_pump (term readS : Signal) :
    (∀ evs r, Manager.manageReader term readS evs = some r →
        r.readS = readS.set (some GoErr.managerClosed)) ∧
    (∀ (ps : List Packet) (e : GoErr) (rest : List ReadEvt),
        Manager.manageReader term readS
            ((ps.map fun p => ReadEvt.ok p true) ++ ReadEvt.fail e :: rest)
          = some ⟨term.set (some (GoErr.wrap e)),
              readS.set (some GoErr.managerClosed),
              (ps.map Action.queueSend) ++
                [Action.termSet (some (GoErr.wrap e)),
                 Action.readSet (some GoErr.managerClosed)]⟩) := by
  constructor
  · intro evs
    induction evs with
    | nil => intro r h; simp [Manager.manageReader] at h
    | cons ev rest ih =>
      intro r h
      cases ev with
      | fail e =>
        simp [Manager.manageReader] at h
        rw [← h]
      | ok p d =>
        cases d with
        | false =>
          simp [Manager.manageReader] at h
          rw [← h]
        | true =>
          simp only [Manager.manageReader] at h
          cases hrest : Manager.manageReader term readS rest with
          | none => rw [hrest] at h; simp at h
          | some r2 =>
            rw [hrest] at h
            simp at h
            rw [← h]
            exact ih r2 hrest
  · intro ps e rest
    induction ps with
    | nil => simp [Manager.manageReader]
    | cons p ps ih =>
      simp [Manager.manageReader, List.append_eq, ih]

theorem C8_witness :
    Manager.manageReader Signal.unset Signal.unset
        [ReadEvt.ok msgPkt true, ReadEvt.fail (GoErr.mk "io")]
      = some ⟨⟨some (some (GoErr.wrap (GoErr.mk "io")))⟩,
          ⟨some (some GoErr.managerClosed)⟩,
          [Action.queueSend msgPkt,
           Action.termSet (some (GoErr.wrap (GoErr.mk "io"))),
           Action.readSet (some GoErr.managerClosed)]⟩ :=
  (C8_reader_pump Signal.unset Signal.unset).2 [msgPkt] (GoErr.mk "io") []

/-- C9: After term has been set (with an error), every NewClientStream or
NewServerStream call whose own context is not done returns the recorded
termination cause immediately from the initial poll — the blocking select
is never reached, no stream is created, and the manager is untouched. -/
theorem C9_term_then_immediate_error (m : Manager) (e ce : GoErr) (b : AcqBranch)
    (evs : List SrvEvent) (hterm : m.term.state = some (some e)) :
    m.acquireSemaphore false ce b = ⟨some e, false, m⟩ ∧
    Manager.NewClientStream m false ce b = ⟨none, some e, m, false⟩ ∧
    Manager.NewServerStream m false ce b evs
      = some ⟨none, "", some e, m, [Action.returnErr (some e)], false⟩ := by
  have hpoll : m.poll false ce = some e := by
    simp [Manager.poll, Signal.isSet, Signal.err, hterm]
  have hacq : m.acquireSemaphore false ce b = ⟨some e, false, m⟩ := by
    unfold Manager.acquireSemaphore
    rw [hpoll]
  refine ⟨hacq, ?_, ?_⟩
  · unfold Manager.NewClientStream
    rw [hacq]
  · unfold Manager.NewServerStream
    rw [hacq]

theorem C9_witness :
    Manager.NewClientStream mTermSet false GoErr.canceled AcqBranch.semSend
      = ⟨none, some GoErr.managerClosed, mTermSet, false⟩ ∧
    mTermSet.term.state = some (some GoErr.managerClosed) :=
  ⟨(C9_term_then_immediate_error mTermSet GoErr.managerClosed GoErr.canceled
      AcqBranch.semSend [] rfl).2.1, rfl⟩

/-- C10: If at call time the caller's context is already done and term is
already set, the initial poll returns the context's error, not the
termination cause: context cancellation has priority in the poll. -/
theorem C10_ctx_priority_over_term (m : Manager) (ce : GoErr) (b : AcqBranch)
    (evs : List SrvEvent) (_hterm : m.term.isSet = true) :
    m.poll true ce = some ce ∧
    m.acquireSemaphore true ce b = ⟨some ce, false, m⟩ ∧
    Manager.NewClientStream m true ce b = ⟨none, some ce, m, false⟩ ∧
    Manager.NewServerStream m true ce b evs
      = some ⟨none, "", some ce, m, [Action.returnErr (some ce)], false⟩ := by
  have hpoll : m.poll true ce = some ce := by
    simp [Manager.poll]
  have hacq : m.acquireSemaphore true ce b = ⟨some ce, false, m⟩ := by
    unfold Manager.acquireSemaphore
    rw [hpoll]
  refine ⟨hpoll, hacq, ?_, ?_⟩
  · unfold Manager.NewClientStream
    rw [hacq]
  · unfold Manager.NewServerStream
    rw [hacq]

theorem C10_witness :
    Manager.NewClientStream mTermSet true GoErr.canceled AcqBranch.semSend
      = ⟨none, some GoErr.canceled, mTermSet, false⟩ ∧
    mTermSet.term.isSet = true :=
  ⟨(C10_ctx_priority_over_term mTermSet GoErr.canceled AcqBranch.semSend [] rfl).2.2.1,
   rfl⟩

end Drpc
